import Mathlib

/-!
Verification of the serpentarius render orchestrator, render pipeline,
memoizer and request validation against their natural-language
specification.

The browser/page pool is embedded from the Rod-based generator
(`PDFGeneratorRod` in the pdf infrastructure implementations file):
browsers are kept in a map from id to `BrowserInfo`, pages carry
`InUse`/`Timer`/`BrowserID` metadata, `availablePages` is the pool and
`waitingQueue` the FIFO of blocked acquirers.  Pointers are modelled by
numeric ids drawn from a fresh-id counter, the browser map by an
association list, and each mutex-protected critical section of the Go
code by one pure transition function on `PoolState`.  `ReturnPage` in
the source releases the mutex after enqueuing the page and only then
calls `startPageTimer` (a second critical section), so the release path
is split into `returnPageLocked` followed by `startPageTimer`; the
`pendingTimers` field is ghost bookkeeping recording releaser
goroutines that still have to run their `startPageTimer` call.
`LastUsed` timestamps are omitted: no claim mentions them and they do
not influence any branch of the embedded code.
-/

namespace Serpentarius

/-- One pooled page: the `PageWithTimeout` record of the source
(`InUse`, a live/stopped idle `Timer`, owning `BrowserID`). -/
structure PageRec where
  inUse : Bool
  timerLive : Bool
  browserId : Nat
  deriving DecidableEq

/-- The `BrowserInfo` record of the source: current `PageCount` and the
ids of the pages created in this browser. -/
structure BrowserInfo where
  pageCount : Nat
  pages : List Nat
  deriving DecidableEq

/-- The mutable state of `PDFGeneratorRod`: the browser map, the page
objects alive in the pool, `availablePages`, `waitingQueue` (waiter
ids), a fresh-id counter standing for XID generation, and the ghost
list of pending `startPageTimer` calls. -/
structure PoolState where
  browsers : List (Nat × BrowserInfo)
  pageTbl : List (Nat × PageRec)
  availablePages : List Nat
  waitingQueue : List Nat
  pendingTimers : List Nat
  nextId : Nat
  deriving DecidableEq

/-- Lookup by id in an id-keyed association list.  Instantiated at
`PageRec` it is a pointer dereference of a pooled page; at
`BrowserInfo` it is the `p.browsers[id]` map lookup. -/
def alookup {α : Type} : List (Nat × α) → Nat → Option α
  | [], _ => none
  | (i, r) :: rest, k => if i = k then some r else alookup rest k

/-- In-place mutation of the entry keyed `k` (a write through the Go
pointer held for that page or browser). -/
def aupdate {α : Type} (k : Nat) (f : α → α) :
    List (Nat × α) → List (Nat × α)
  | [] => []
  | (i, r) :: rest =>
      if i = k then (i, f r) :: rest else (i, r) :: aupdate k f rest

/-- Removal of the entry keyed `k` (page close / `delete(p.browsers, id)`). -/
def aremove {α : Type} (k : Nat) (l : List (Nat × α)) : List (Nat × α) :=
  l.filter (fun e => e.1 != k)

/-- The empty generator state built by `GetPDFGeneratorRod`. -/
def initState : PoolState :=
  { browsers := [], pageTbl := [], availablePages := [], waitingQueue := [],
    pendingTimers := [], nextId := 0 }

/-- Result of one `findOrCreateAvailablePage` critical section: either a
page was produced (`got`) or the caller was enqueued as a waiter
(`waiting`). -/
inductive AcquireOutcome where
  | got (pid : Nat)
  | waiting (wid : Nat)
  deriving DecidableEq

/-- The `for _, browserInfo := range p.browsers` scan of
`findOrCreateAvailablePage`: find the first browser with
`PageCount < MaxPagesPerBrowser` and run `createPage` on it (append the
new page id, increment `PageCount`).  Returns the updated browser list
and the id of the chosen browser, or `none` when every browser is at
capacity. -/
def createPageInFirstAvail (maxP : Nat) (pid : Nat) :
    List (Nat × BrowserInfo) → Option (List (Nat × BrowserInfo) × Nat)
  | [] => none
  | (i, b) :: rest =>
      if b.pageCount < maxP then
        some ((i, { pageCount := b.pageCount + 1, pages := b.pages ++ [pid] }) :: rest, i)
      else
        match createPageInFirstAvail maxP pid rest with
        | some (rest2, bid) => some ((i, b) :: rest2, bid)
        | none => none

/-- The critical section of `findOrCreateAvailablePage`:
1. pop the front of `availablePages`, stop its timer, mark it in use;
2. otherwise `createPage` in the first browser with capacity and mark
   the new page in use;
3. otherwise, if `len(browsers) < MaxBrowsers`, `createBrowser` and
   `createPage` its first page, marked in use;
4. otherwise enqueue a fresh waiter channel and block. -/
def findOrCreateAvailablePage (maxB maxP : Nat) (s : PoolState) :
    PoolState × AcquireOutcome :=
  match s.availablePages with
  | pid :: rest =>
      ({ s with availablePages := rest,
                pageTbl := aupdate pid
                  (fun r => { r with inUse := true, timerLive := false }) s.pageTbl },
       .got pid)
  | [] =>
      let pid := s.nextId
      match createPageInFirstAvail maxP pid s.browsers with
      | some (bs, bid) =>
          ({ s with browsers := bs,
                    pageTbl := s.pageTbl ++
                      [(pid, { inUse := true, timerLive := false, browserId := bid })],
                    nextId := s.nextId + 1 },
           .got pid)
      | none =>
          if s.browsers.length < maxB then
            -- createBrowser inserts a fresh empty browser, then createPage
            -- adds its first page, and the caller sets InUse.
            let bid := s.nextId
            let pid2 := s.nextId + 1
            ({ s with browsers := s.browsers ++ [(bid, { pageCount := 1, pages := [pid2] })],
                      pageTbl := s.pageTbl ++
                        [(pid2, { inUse := true, timerLive := false, browserId := bid })],
                      nextId := s.nextId + 2 },
             .got pid2)
          else
            let wid := s.nextId
            ({ s with waitingQueue := s.waitingQueue ++ [wid], nextId := s.nextId + 1 },
             .waiting wid)

/-- What a completed `ReturnPage` critical section did with the page:
direct handoff to the head waiter, enqueue into the pool, or close of a
page that is no longer tracked by any browser. -/
inductive ReleaseOutcome where
  | handedOff (wid pid : Nat)
  | pooled (pid : Nat)
  | closedUnknown
  deriving DecidableEq

/-- The `ReturnPage` scan over `p.browsers` looking for the
`PageWithTimeout` whose Rod page equals the returned one. -/
def pageTracked (s : PoolState) (pid : Nat) : Bool :=
  s.browsers.any (fun b => b.2.pages.contains pid)

/-- The mutex-protected part of `ReturnPage`: find the page; if absent,
close it; else clear `InUse`, hand the page (re-marked `InUse`) to the
head waiter if one exists, otherwise append it to `availablePages`.
The subsequent `startPageTimer` call happens outside this critical
section and is recorded in `pendingTimers`. -/
def returnPageLocked (s : PoolState) (pid : Nat) : PoolState × ReleaseOutcome :=
  if pageTracked s pid then
    match s.waitingQueue with
    | wid :: ws =>
        ({ s with waitingQueue := ws,
                  pageTbl := aupdate pid (fun r => { r with inUse := true }) s.pageTbl },
         .handedOff wid pid)
    | [] =>
        ({ s with availablePages := s.availablePages ++ [pid],
                  pageTbl := aupdate pid (fun r => { r with inUse := false }) s.pageTbl,
                  pendingTimers := s.pendingTimers ++ [pid] },
         .pooled pid)
  else
    (s, .closedUnknown)

/-- The `startPageTimer` critical section: stop any existing timer and
schedule a fresh `time.AfterFunc` for the page. -/
def startPageTimer (s : PoolState) (pid : Nat) : PoolState :=
  { s with pageTbl := aupdate pid (fun r => { r with timerLive := true }) s.pageTbl,
           pendingTimers := s.pendingTimers.erase pid }

/-- The `closeIdlePage` critical section run when an idle timer fires:
if the page is still tracked, not in use and still in `availablePages`,
remove it from the pool, close it, decrement the owning browser's
`PageCount`, drop it from the browser's page list, and close and remove
the browser when its `PageCount` reaches 0; otherwise do nothing. -/
def closeIdlePage (s : PoolState) (pid : Nat) : PoolState :=
  match alookup s.pageTbl pid with
  | none => s
  | some r =>
      if r.inUse then s
      else if s.availablePages.contains pid then
        let bs := aupdate r.browserId
          (fun b => { pageCount := b.pageCount - 1, pages := b.pages.erase pid }) s.browsers
        let bs2 :=
          match alookup bs r.browserId with
          | some b => if b.pageCount = 0 then aremove r.browserId bs else bs
          | none => bs
        { s with availablePages := s.availablePages.erase pid,
                 pageTbl := aremove pid s.pageTbl,
                 browsers := bs2 }
      else s

/-- The `ReleaseBrowserPool` critical section: stop every timer, close
every page and browser, clear the pool and the waiter queue. -/
def releaseBrowserPool (s : PoolState) : PoolState :=
  { browsers := [], pageTbl := [], availablePages := [], waitingQueue := [],
    pendingTimers := [], nextId := s.nextId }

/-- A page currently held by some caller: its object is alive and
marked `InUse`. -/
def heldByCaller (s : PoolState) (pid : Nat) : Prop :=
  ∃ r, alookup s.pageTbl pid = some r ∧ r.inUse = true

/-- Pool states reachable from the fresh generator by interleavings of
the critical sections above.  `release` fires only for a page its
caller actually holds, and a pending `startPageTimer` may run at any
later point, matching the goroutine that re-acquires the mutex after
`ReturnPage` unlocked it. -/
inductive Reachable (maxB maxP : Nat) : PoolState → Prop where
  | init : Reachable maxB maxP initState
  | acquire {s} : Reachable maxB maxP s →
      Reachable maxB maxP (findOrCreateAvailablePage maxB maxP s).1
  | release {s pid} : Reachable maxB maxP s → heldByCaller s pid →
      Reachable maxB maxP (returnPageLocked s pid).1
  | timerStart {s pid} : Reachable maxB maxP s → pid ∈ s.pendingTimers →
      Reachable maxB maxP (startPageTimer s pid)
  | timerFire {s pid} : Reachable maxB maxP s →
      Reachable maxB maxP (closeIdlePage s pid)
  | shutdown {s} : Reachable maxB maxP s →
      Reachable maxB maxP (releaseBrowserPool s)

/-! ### Association-list lemmas -/

theorem alookup_mem {α : Type} {l : List (Nat × α)} {k : Nat} {r : α}
    (h : alookup l k = some r) : (k, r) ∈ l := by
  induction l with
  | nil => simp [alookup] at h
  | cons e rest ih =>
      obtain ⟨i, v⟩ := e
      by_cases hik : i = k
      · subst hik
        simp [alookup] at h
        simp [h]
      · simp [alookup, hik] at h
        exact List.mem_cons_of_mem _ (ih h)

theorem alookup_aupdate_self {α : Type} {l : List (Nat × α)} {k : Nat} {r : α}
    (f : α → α) (h : alookup l k = some r) :
    alookup (aupdate k f l) k = some (f r) := by
  induction l with
  | nil => simp [alookup] at h
  | cons e rest ih =>
      obtain ⟨i, v⟩ := e
      by_cases hik : i = k
      · subst hik
        simp [alookup] at h
        simp [alookup, aupdate, h]
      · simp [alookup, hik] at h
        simp [alookup, aupdate, hik, ih h]

theorem alookup_aupdate_ne {α : Type} {l : List (Nat × α)} {k q : Nat}
    (f : α → α) (h : q ≠ k) :
    alookup (aupdate k f l) q = alookup l q := by
  induction l with
  | nil => simp [aupdate]
  | cons e rest ih =>
      obtain ⟨i, v⟩ := e
      by_cases hik : i = k
      · subst hik
        have : i ≠ q := fun hc => h hc.symm
        simp [alookup, aupdate, this]
      · simp [alookup, aupdate, hik]
        by_cases hiq : i = q
        · simp [hiq]
        · simp [hiq, ih]

theorem mem_aupdate {α : Type} {l : List (Nat × α)} {k : Nat} {f : α → α}
    {e : Nat × α} (h : e ∈ aupdate k f l) :
    e ∈ l ∨ ∃ r, (k, r) ∈ l ∧ e = (k, f r) := by
  induction l with
  | nil => simp [aupdate] at h
  | cons x rest ih =>
      obtain ⟨i, v⟩ := x
      by_cases hik : i = k
      · subst hik
        simp [aupdate] at h
        rcases h with h | h
        · exact Or.inr ⟨v, by simp, h⟩
        · exact Or.inl (List.mem_cons_of_mem _ h)
      · simp [aupdate, hik] at h
        rcases h with h | h
        · exact Or.inl (by simp [h])
        · rcases ih h with h2 | ⟨r, hr, he⟩
          · exact Or.inl (List.mem_cons_of_mem _ h2)
          · exact Or.inr ⟨r, List.mem_cons_of_mem _ hr, he⟩

theorem aupdate_map_fst {α : Type} (k : Nat) (f : α → α) (l : List (Nat × α)) :
    (aupdate k f l).map Prod.fst = l.map Prod.fst := by
  induction l with
  | nil => simp [aupdate]
  | cons x rest ih =>
      obtain ⟨i, v⟩ := x
      by_cases hik : i = k
      · simp [aupdate, hik]
      · simp [aupdate, hik, ih]

theorem alookup_aremove_self {α : Type} (k : Nat) (l : List (Nat × α)) :
    alookup (aremove k l) k = none := by
  induction l with
  | nil => simp [aremove, alookup]
  | cons x rest ih =>
      obtain ⟨i, v⟩ := x
      by_cases hik : i = k
      · have hb : (i != k) = false := by simp [hik]
        simpa [aremove, List.filter_cons, hb] using ih
      · have hb : (i != k) = true := by simp [hik]
        simpa [aremove, List.filter_cons, hb, alookup, hik] using ih

theorem alookup_aremove_ne {α : Type} {k q : Nat} (l : List (Nat × α))
    (h : q ≠ k) : alookup (aremove k l) q = alookup l q := by
  induction l with
  | nil => simp [aremove]
  | cons x rest ih =>
      obtain ⟨i, v⟩ := x
      by_cases hik : i = k
      · subst hik
        have hne : i ≠ q := fun hc => h hc.symm
        have hb : (i != i) = false := by simp
        simpa [aremove, List.filter_cons, hb, alookup, hne] using ih
      · have hb : (i != k) = true := by simp [hik]
        by_cases hiq : i = q
        · simp [aremove, List.filter_cons, hb, alookup, hiq, h]
        · simpa [aremove, List.filter_cons, hb, alookup, hiq] using ih

theorem aremove_sublist {α : Type} (k : Nat) (l : List (Nat × α)) :
    (aremove k l).Sublist l :=
  List.filter_sublist l

theorem mem_aremove {α : Type} {k : Nat} {l : List (Nat × α)} {e : Nat × α}
    (h : e ∈ aremove k l) : e ∈ l ∧ e.1 ≠ k := by
  have := List.mem_filter.mp h
  refine ⟨this.1, ?_⟩
  simpa using this.2

theorem alookup_append_some {α : Type} {l l2 : List (Nat × α)} {q : Nat} {r : α}
    (h : alookup l q = some r) : alookup (l ++ l2) q = some r := by
  induction l with
  | nil => simp [alookup] at h
  | cons x rest ih =>
      obtain ⟨i, v⟩ := x
      by_cases hiq : i = q
      · simp [alookup, hiq] at h ⊢
        exact h
      · simp [alookup, hiq] at h ⊢
        exact ih h

theorem alookup_append_none {α : Type} {l : List (Nat × α)} {q : Nat}
    (l2 : List (Nat × α)) (h : alookup l q = none) :
    alookup (l ++ l2) q = alookup l2 q := by
  induction l with
  | nil => simp
  | cons x rest ih =>
      obtain ⟨i, v⟩ := x
      by_cases hiq : i = q
      · simp [alookup, hiq] at h
      · simp [alookup, hiq] at h ⊢
        exact ih h

theorem alookup_eq_none {α : Type} {l : List (Nat × α)} {k : Nat}
    (h : ∀ e ∈ l, e.1 ≠ k) : alookup l k = none := by
  induction l with
  | nil => simp [alookup]
  | cons x rest ih =>
      obtain ⟨i, v⟩ := x
      have hik : i ≠ k := h (i, v) (by simp)
      simp [alookup, hik]
      exact ih fun e he => h e (List.mem_cons_of_mem _ he)

theorem createPageInFirstAvail_eq_some {maxP pid : Nat} :
    ∀ {bs bs' : List (Nat × BrowserInfo)} {bid : Nat},
    createPageInFirstAvail maxP pid bs = some (bs', bid) →
    ∃ pre b post, bs = pre ++ (bid, b) :: post ∧ b.pageCount < maxP ∧
      (∀ e ∈ pre, ¬ e.2.pageCount < maxP) ∧
      bs' = pre ++
        (bid, { pageCount := b.pageCount + 1, pages := b.pages ++ [pid] }) :: post := by
  intro bs
  induction bs with
  | nil => intro bs' bid h; simp [createPageInFirstAvail] at h
  | cons e rest ih =>
      intro bs' bid h
      obtain ⟨i, b⟩ := e
      by_cases hb : b.pageCount < maxP
      · simp [createPageInFirstAvail, hb] at h
        refine ⟨[], b, rest, ?_, hb, by simp, ?_⟩
        · simp [h.2]
        · rw [← h.1, h.2]
          simp
      · simp [createPageInFirstAvail, hb] at h
        rcases hrec : createPageInFirstAvail maxP pid rest with _ | p
        · rw [hrec] at h; simp at h
        · rw [hrec] at h
          obtain ⟨rest2, bid2⟩ := p
          simp at h
          obtain ⟨pre, b2, post, hrest, hlt, hpre, hrest2⟩ := ih hrec
          refine ⟨(i, b) :: pre, b2, post, ?_, hlt, ?_, ?_⟩
          · simp [hrest, h.2]
          · intro x hx
            rcases List.mem_cons.mp hx with hx | hx
            · simpa [hx] using hb
            · exact hpre x hx
          · simp [← h.1, hrest2, h.2]

theorem mem_aupdate_of_nodup {α : Type} {l : List (Nat × α)} {k : Nat}
    {f : α → α} {e : Nat × α} (hn : (l.map Prod.fst).Nodup)
    (h : e ∈ aupdate k f l) :
    (e ∈ l ∧ e.1 ≠ k) ∨ ∃ r, alookup l k = some r ∧ e = (k, f r) := by
  induction l with
  | nil => simp [aupdate] at h
  | cons x rest ih =>
      obtain ⟨i, v⟩ := x
      simp only [List.map_cons, List.nodup_cons] at hn
      by_cases hik : i = k
      · subst hik
        simp [aupdate] at h
        rcases h with h | h
        · exact Or.inr ⟨v, by simp [alookup], h⟩
        · refine Or.inl ⟨List.mem_cons_of_mem _ h, ?_⟩
          intro hc
          exact hn.1 (by simpa [← hc] using List.mem_map_of_mem Prod.fst h)
      · simp [aupdate, hik] at h
        rcases h with h | h
        · exact Or.inl ⟨by simp [h], by simp [h, hik]⟩
        · rcases ih hn.2 h with ⟨h1, h2⟩ | ⟨r, hr, he⟩
          · exact Or.inl ⟨List.mem_cons_of_mem _ h1, h2⟩
          · exact Or.inr ⟨r, by simp [alookup, hik, hr], he⟩

theorem aupdate_length {α : Type} (k : Nat) (f : α → α) (l : List (Nat × α)) :
    (aupdate k f l).length = l.length := by
  have h := congrArg List.length (aupdate_map_fst k f l)
  simpa using h

theorem alookup_append_cons_self {α : Type} {pre : List (Nat × α)} {bid : Nat}
    {x : α} (post : List (Nat × α)) (h : ∀ e ∈ pre, e.1 ≠ bid) :
    alookup (pre ++ (bid, x) :: post) bid = some x := by
  rw [alookup_append_none _ (alookup_eq_none h)]
  simp [alookup]

theorem alookup_value_change {α : Type} {pre post : List (Nat × α)} {bid q : Nat}
    (x y : α) (h : q ≠ bid) :
    alookup (pre ++ (bid, x) :: post) q = alookup (pre ++ (bid, y) :: post) q := by
  induction pre with
  | nil =>
      have : bid ≠ q := fun hc => h hc.symm
      simp [alookup, this]
  | cons e rest ih =>
      obtain ⟨i, v⟩ := e
      by_cases hiq : i = q
      · simp [alookup, hiq]
      · simpa [alookup, hiq] using ih

/-! ### The pool invariant -/

/-- The inductive invariant of the orchestrator state.  Besides the two
resource bounds of the specification it records the bookkeeping facts
needed to push them through every critical section: page counts agree
with page lists, ids are unique and below the fresh-id counter, pooled
pages are live and idle, an in-use page is never pooled, and every live
page is listed by the browser that owns it. -/
structure PoolInv (maxB maxP : Nat) (s : PoolState) : Prop where
  bLen : s.browsers.length ≤ maxB
  bCount : ∀ e ∈ s.browsers, e.2.pageCount ≤ maxP
  bCountEq : ∀ e ∈ s.browsers, e.2.pageCount = e.2.pages.length
  bKeys : (s.browsers.map Prod.fst).Nodup
  bFresh : ∀ e ∈ s.browsers, e.1 < s.nextId
  pKeys : (s.pageTbl.map Prod.fst).Nodup
  pFresh : ∀ e ∈ s.pageTbl, e.1 < s.nextId
  availMem : ∀ pid ∈ s.availablePages,
    ∃ r, alookup s.pageTbl pid = some r ∧ r.inUse = false
  availNodup : s.availablePages.Nodup
  inUseNotAvail : ∀ e ∈ s.pageTbl, e.2.inUse = true → e.1 ∉ s.availablePages
  pageOwner : ∀ e ∈ s.pageTbl,
    ∃ b, alookup s.browsers e.2.browserId = some b ∧ e.1 ∈ b.pages

theorem initState_inv (maxB maxP : Nat) : PoolInv maxB maxP initState := by
  constructor <;> simp [initState]

theorem findOrCreate_inv {maxB maxP : Nat} {s : PoolState}
    (hP : 1 ≤ maxP) (hinv : PoolInv maxB maxP s) :
    PoolInv maxB maxP (findOrCreateAvailablePage maxB maxP s).1 := by
  unfold findOrCreateAvailablePage
  rcases hA : s.availablePages with _ | ⟨pid, rest⟩
  · -- the pool is empty
    dsimp only
    rcases hC : createPageInFirstAvail maxP s.nextId s.browsers with _ | ⟨bs, bid⟩
    · -- no browser has capacity
      dsimp only
      by_cases hB : s.browsers.length < maxB
      · -- create a browser and its first page
        rw [if_pos hB]
        dsimp only
        refine { bLen := ?_, bCount := ?_, bCountEq := ?_, bKeys := ?_,
                 bFresh := ?_, pKeys := ?_, pFresh := ?_, availMem := ?_,
                 availNodup := ?_, inUseNotAvail := ?_, pageOwner := ?_ }
        · simpa using Nat.succ_le_of_lt hB
        · intro e he
          simp at he
          rcases he with he | he
          · exact hinv.bCount e he
          · simp [he, hP]
        · intro e he
          simp at he
          rcases he with he | he
          · exact hinv.bCountEq e he
          · simp [he]
        · simp only [List.map_append, List.map_cons, List.map_nil]
          rw [List.nodup_append]
          refine ⟨hinv.bKeys, by simp, fun a ha hb => ?_⟩
          simp at hb
          subst hb
          rcases List.mem_map.mp ha with ⟨e, he, hke⟩
          have h2 := hinv.bFresh e he
          omega
        · intro e he
          simp at he
          rcases he with he | he
          · have := hinv.bFresh e he
            dsimp only
            omega
          · simp [he]
        · simp only [List.map_append, List.map_cons, List.map_nil]
          rw [List.nodup_append]
          refine ⟨hinv.pKeys, by simp, fun a ha hb => ?_⟩
          simp at hb
          subst hb
          rcases List.mem_map.mp ha with ⟨e, he, hke⟩
          have h2 := hinv.pFresh e he
          omega
        · intro e he
          simp at he
          rcases he with he | he
          · have := hinv.pFresh e he
            dsimp only
            omega
          · simp [he]
        · intro q hq
          simp [hA] at hq
        · simp [hA]
        · intro e he hin
          simp [hA]
        · intro e he
          simp at he
          rcases he with he | he
          · rcases hinv.pageOwner e he with ⟨b, hb, hmem⟩
            exact ⟨b, alookup_append_some hb, hmem⟩
          · have hnone : alookup s.browsers s.nextId = none := by
              apply alookup_eq_none
              intro x hx
              have := hinv.bFresh x hx
              omega
            refine ⟨{ pageCount := 1, pages := [s.nextId + 1] }, ?_, by simp [he]⟩
            rw [he]
            dsimp only
            rw [alookup_append_none _ hnone]
            simp [alookup]
      · -- saturated: enqueue a waiter
        rw [if_neg hB]
        dsimp only
        refine { bLen := hinv.bLen, bCount := hinv.bCount,
                 bCountEq := hinv.bCountEq, bKeys := hinv.bKeys,
                 bFresh := ?_, pKeys := hinv.pKeys, pFresh := ?_,
                 availMem := ?_, availNodup := ?_,
                 inUseNotAvail := ?_, pageOwner := hinv.pageOwner }
        · intro e he
          have := hinv.bFresh e he
          dsimp only
          omega
        · intro e he
          have := hinv.pFresh e he
          dsimp only
          omega
        · intro q hq
          simp [hA] at hq
        · simp [hA]
        · intro e he hin
          simp [hA]
    · -- create a page in the first browser with capacity
      dsimp only
      obtain ⟨pre, b, post, hbs_eq, hblt, hpre, hbs2⟩ :=
        createPageInFirstAvail_eq_some hC
      set b2 : BrowserInfo :=
        { pageCount := b.pageCount + 1, pages := b.pages ++ [s.nextId] } with hb2
      have hbidpre : ∀ e ∈ pre, e.1 ≠ bid := by
        have hK := hinv.bKeys
        rw [hbs_eq] at hK
        simp only [List.map_append, List.map_cons] at hK
        rw [List.nodup_append] at hK
        intro e he hc
        exact hK.2.2 (List.mem_map_of_mem Prod.fst he) (by simp [hc])
      have hlookup_orig : alookup s.browsers bid = some b := by
        rw [hbs_eq]; exact alookup_append_cons_self post hbidpre
      have hlookup_new : alookup bs bid = some b2 := by
        rw [hbs2]; exact alookup_append_cons_self post hbidpre
      have hlookup_ne : ∀ q, q ≠ bid → alookup bs q = alookup s.browsers q := by
        intro q hq
        rw [hbs2, hbs_eq]
        exact alookup_value_change b2 b hq
      have hmem_bid : (bid, b) ∈ s.browsers := by
        rw [hbs_eq]; simp
      have hbs_mem : ∀ e ∈ bs, e ∈ s.browsers ∨ e = (bid, b2) := by
        intro e he
        rw [hbs2] at he
        simp at he
        rcases he with he | he | he
        · exact Or.inl (by rw [hbs_eq]; simp [he])
        · exact Or.inr (by simp [he])
        · exact Or.inl (by rw [hbs_eq]; simp [he])
      refine { bLen := ?_, bCount := ?_, bCountEq := ?_, bKeys := ?_,
               bFresh := ?_, pKeys := ?_, pFresh := ?_, availMem := ?_,
               availNodup := ?_, inUseNotAvail := ?_, pageOwner := ?_ }
      · have hlen : bs.length = s.browsers.length := by
          rw [hbs2, hbs_eq]; simp
        simpa [hlen] using hinv.bLen
      · intro e he
        rcases hbs_mem e he with he2 | he2
        · exact hinv.bCount e he2
        · rw [he2]
          simpa [hb2] using hblt
      · intro e he
        rcases hbs_mem e he with he2 | he2
        · exact hinv.bCountEq e he2
        · rw [he2]
          have := hinv.bCountEq (bid, b) hmem_bid
          simp [hb2] at this ⊢
          omega
      · have hkeys : bs.map Prod.fst = s.browsers.map Prod.fst := by
          rw [hbs2, hbs_eq]; simp
        simpa [hkeys] using hinv.bKeys
      · intro e he
        rcases hbs_mem e he with he2 | he2
        · have := hinv.bFresh e he2
          dsimp only
          omega
        · rw [he2]
          have := hinv.bFresh (bid, b) hmem_bid
          simp at this ⊢
          omega
      · simp only [List.map_append, List.map_cons, List.map_nil]
        rw [List.nodup_append]
        refine ⟨hinv.pKeys, by simp, fun a ha hb => ?_⟩
        simp at hb
        subst hb
        rcases List.mem_map.mp ha with ⟨e, he, hke⟩
        have h2 := hinv.pFresh e he
        omega
      · intro e he
        simp at he
        rcases he with he | he
        · have := hinv.pFresh e he
          dsimp only
          omega
        · simp [he]
      · intro q hq
        simp [hA] at hq
      · simp [hA]
      · intro e he hin
        simp [hA]
      · intro e he
        simp at he
        rcases he with he | he
        · rcases hinv.pageOwner e he with ⟨be, hbe, hmem⟩
          by_cases hq : e.2.browserId = bid
          · rw [hq] at hbe
            have hbeb : be = b := by
              rw [hlookup_orig] at hbe
              exact (Option.some_injective _ hbe).symm
            refine ⟨b2, by rw [hq]; exact hlookup_new, ?_⟩
            rw [hbeb] at hmem
            simp [hb2]
            exact Or.inl hmem
          · rw [hlookup_ne _ hq]
            exact ⟨be, hbe, hmem⟩
        · refine ⟨b2, ?_, ?_⟩
          · rw [he]
            dsimp only
            exact hlookup_new
          · simp [he, hb2]
  · -- pop the head of the pool
    dsimp only
    have hND : (pid :: rest).Nodup := hA ▸ hinv.availNodup
    have hpr : pid ∉ rest := (List.nodup_cons.mp hND).1
    refine { bLen := hinv.bLen, bCount := hinv.bCount,
             bCountEq := hinv.bCountEq, bKeys := hinv.bKeys,
             bFresh := hinv.bFresh, pKeys := ?_, pFresh := ?_,
             availMem := ?_, availNodup := (List.nodup_cons.mp hND).2,
             inUseNotAvail := ?_, pageOwner := ?_ }
    · rw [aupdate_map_fst]
      exact hinv.pKeys
    · intro e he
      rcases mem_aupdate he with he2 | ⟨r, hr, he2⟩
      · exact hinv.pFresh e he2
      · rw [he2]
        exact hinv.pFresh (pid, r) hr
    · intro q hq
      have hq2 : q ∈ s.availablePages := by rw [hA]; exact List.mem_cons_of_mem _ hq
      rcases hinv.availMem q hq2 with ⟨r, hr, hru⟩
      have hqp : q ≠ pid := fun hc => hpr (hc ▸ hq)
      rw [alookup_aupdate_ne _ hqp]
      exact ⟨r, hr, hru⟩
    · intro e he hin
      rcases mem_aupdate_of_nodup hinv.pKeys he with ⟨he2, hne⟩ | ⟨r, hr, he2⟩
      · have := hinv.inUseNotAvail e he2 hin
        intro hc
        exact this (by rw [hA]; exact List.mem_cons_of_mem _ hc)
      · rw [he2]
        exact hpr
    · intro e he
      rcases mem_aupdate he with he2 | ⟨r, hr, he2⟩
      · exact hinv.pageOwner e he2
      · rcases hinv.pageOwner (pid, r) hr with ⟨be, hbe, hmem⟩
        rw [he2]
        exact ⟨be, hbe, hmem⟩

theorem returnPage_inv {maxB maxP : Nat} {s : PoolState} {pid : Nat}
    (hinv : PoolInv maxB maxP s) (hheld : heldByCaller s pid) :
    PoolInv maxB maxP (returnPageLocked s pid).1 := by
  obtain ⟨r0, hr0, hr0u⟩ := hheld
  have hmem0 : (pid, r0) ∈ s.pageTbl := alookup_mem hr0
  have hpna : pid ∉ s.availablePages := hinv.inUseNotAvail (pid, r0) hmem0 hr0u
  unfold returnPageLocked
  by_cases ht : pageTracked s pid = true
  · rw [if_pos ht]
    rcases hW : s.waitingQueue with _ | ⟨wid, ws⟩
    · -- no waiter: pool the page
      dsimp only
      refine { bLen := hinv.bLen, bCount := hinv.bCount,
               bCountEq := hinv.bCountEq, bKeys := hinv.bKeys,
               bFresh := hinv.bFresh, pKeys := ?_, pFresh := ?_,
               availMem := ?_, availNodup := ?_,
               inUseNotAvail := ?_, pageOwner := ?_ }
      · rw [aupdate_map_fst]
        exact hinv.pKeys
      · intro e he
        rcases mem_aupdate he with he2 | ⟨r, hr, he2⟩
        · exact hinv.pFresh e he2
        · rw [he2]
          exact hinv.pFresh (pid, r) hr
      · intro q hq
        simp at hq
        rcases hq with hq | hq
        · have hqp : q ≠ pid := fun hc => hpna (hc ▸ hq)
          rw [alookup_aupdate_ne _ hqp]
          exact hinv.availMem q hq
        · subst hq
          exact ⟨_, alookup_aupdate_self _ hr0, rfl⟩
      · simp [List.nodup_append, hinv.availNodup, hpna]
      · intro e he hin
        rcases mem_aupdate_of_nodup hinv.pKeys he with ⟨he2, hne⟩ | ⟨r, hr, he2⟩
        · have h2 := hinv.inUseNotAvail e he2 hin
          simp
          exact ⟨h2, hne⟩
        · rw [he2] at hin
          simp at hin
      · intro e he
        rcases mem_aupdate he with he2 | ⟨r, hr, he2⟩
        · exact hinv.pageOwner e he2
        · rcases hinv.pageOwner (pid, r) hr with ⟨be, hbe, hmem⟩
          rw [he2]
          exact ⟨be, hbe, hmem⟩
    · -- hand the page to the head waiter
      dsimp only
      refine { bLen := hinv.bLen, bCount := hinv.bCount,
               bCountEq := hinv.bCountEq, bKeys := hinv.bKeys,
               bFresh := hinv.bFresh, pKeys := ?_, pFresh := ?_,
               availMem := ?_, availNodup := hinv.availNodup,
               inUseNotAvail := ?_, pageOwner := ?_ }
      · rw [aupdate_map_fst]
        exact hinv.pKeys
      · intro e he
        rcases mem_aupdate he with he2 | ⟨r, hr, he2⟩
        · exact hinv.pFresh e he2
        · rw [he2]
          exact hinv.pFresh (pid, r) hr
      · intro q hq
        have hqp : q ≠ pid := fun hc => hpna (hc ▸ hq)
        rw [alookup_aupdate_ne _ hqp]
        exact hinv.availMem q hq
      · intro e he hin
        rcases mem_aupdate_of_nodup hinv.pKeys he with ⟨he2, hne⟩ | ⟨r, hr, he2⟩
        · exact hinv.inUseNotAvail e he2 hin
        · rw [he2]
          exact hpna
      · intro e he
        rcases mem_aupdate he with he2 | ⟨r, hr, he2⟩
        · exact hinv.pageOwner e he2
        · rcases hinv.pageOwner (pid, r) hr with ⟨be, hbe, hmem⟩
          rw [he2]
          exact ⟨be, hbe, hmem⟩
  · rw [if_neg ht]
    exact hinv

theorem startPageTimer_inv {maxB maxP : Nat} {s : PoolState} {pid : Nat}
    (hinv : PoolInv maxB maxP s) :
    PoolInv maxB maxP (startPageTimer s pid) := by
  unfold startPageTimer
  refine { bLen := hinv.bLen, bCount := hinv.bCount,
           bCountEq := hinv.bCountEq, bKeys := hinv.bKeys,
           bFresh := hinv.bFresh, pKeys := ?_, pFresh := ?_,
           availMem := ?_, availNodup := hinv.availNodup,
           inUseNotAvail := ?_, pageOwner := ?_ }
  · rw [aupdate_map_fst]
    exact hinv.pKeys
  · intro e he
    rcases mem_aupdate he with he2 | ⟨r, hr, he2⟩
    · exact hinv.pFresh e he2
    · rw [he2]
      exact hinv.pFresh (pid, r) hr
  · intro q hq
    rcases hinv.availMem q hq with ⟨r, hr, hru⟩
    by_cases hqp : q = pid
    · subst hqp
      exact ⟨_, alookup_aupdate_self _ hr, hru⟩
    · rw [alookup_aupdate_ne _ hqp]
      exact ⟨r, hr, hru⟩
  · intro e he hin
    rcases mem_aupdate_of_nodup hinv.pKeys he with ⟨he2, hne⟩ | ⟨r, hr, he2⟩
    · exact hinv.inUseNotAvail e he2 hin
    · rw [he2] at hin
      simp at hin
      rw [he2]
      exact hinv.inUseNotAvail (pid, r) (alookup_mem hr) hin
  · intro e he
    rcases mem_aupdate he with he2 | ⟨r, hr, he2⟩
    · exact hinv.pageOwner e he2
    · rcases hinv.pageOwner (pid, r) hr with ⟨be, hbe, hmem⟩
      rw [he2]
      exact ⟨be, hbe, hmem⟩

theorem releaseBrowserPool_inv {maxB maxP : Nat} (s : PoolState) :
    PoolInv maxB maxP (releaseBrowserPool s) := by
  constructor <;> simp [releaseBrowserPool]

theorem closeIdlePage_inv {maxB maxP : Nat} {s : PoolState} {pid : Nat}
    (hinv : PoolInv maxB maxP s) :
    PoolInv maxB maxP (closeIdlePage s pid) := by
  unfold closeIdlePage
  rcases hG : alookup s.pageTbl pid with _ | r
  · exact hinv
  · dsimp only
    by_cases hU : r.inUse = true
    · rw [if_pos hU]
      exact hinv
    · rw [if_neg hU]
      by_cases hAv : s.availablePages.contains pid = true
      · rw [if_pos hAv]
        have hmem_pid : (pid, r) ∈ s.pageTbl := alookup_mem hG
        obtain ⟨b0, hb0, hpmem⟩ := hinv.pageOwner (pid, r) hmem_pid
        have hmem_b0 : (r.browserId, b0) ∈ s.browsers := alookup_mem hb0
        have hcnt : b0.pageCount = b0.pages.length := hinv.bCountEq _ hmem_b0
        have hlook_bs :
            alookup (aupdate r.browserId
                (fun b => { pageCount := b.pageCount - 1, pages := b.pages.erase pid })
                s.browsers) r.browserId
              = some { pageCount := b0.pageCount - 1, pages := b0.pages.erase pid } :=
          alookup_aupdate_self _ hb0
        have herase : (b0.pages.erase pid).length = b0.pages.length - 1 :=
          List.length_erase_of_mem hpmem
        have hpos : 0 < b0.pages.length := List.length_pos_of_mem hpmem
        have hbsKeys :
            ((aupdate r.browserId
                (fun b => { pageCount := b.pageCount - 1, pages := b.pages.erase pid })
                s.browsers).map Prod.fst).Nodup := by
          rw [aupdate_map_fst]
          exact hinv.bKeys
        rw [hlook_bs]
        dsimp only
        by_cases hz : b0.pageCount - 1 = 0
        · rw [if_pos hz]
          refine { bLen := ?_, bCount := ?_, bCountEq := ?_, bKeys := ?_,
                   bFresh := ?_, pKeys := ?_, pFresh := ?_, availMem := ?_,
                   availNodup := ?_, inUseNotAvail := ?_, pageOwner := ?_ }
          · refine le_trans (List.Sublist.length_le (aremove_sublist _ _)) ?_
            rw [aupdate_length]
            exact hinv.bLen
          · intro e he
            rcases mem_aupdate_of_nodup hinv.bKeys (mem_aremove he).1 with
              ⟨he2, hne⟩ | ⟨b, hb, he2⟩
            · exact hinv.bCount e he2
            · have hbb : b = b0 := by
                rw [hb] at hb0
                exact Option.some_injective _ hb0
              rw [he2, hbb]
              have := hinv.bCount _ hmem_b0
              dsimp only at this ⊢
              omega
          · intro e he
            rcases mem_aupdate_of_nodup hinv.bKeys (mem_aremove he).1 with
              ⟨he2, hne⟩ | ⟨b, hb, he2⟩
            · exact hinv.bCountEq e he2
            · have hbb : b = b0 := by
                rw [hb] at hb0
                exact Option.some_injective _ hb0
              rw [he2, hbb]
              dsimp only
              omega
          · exact List.Nodup.sublist ((aremove_sublist _ _).map Prod.fst) hbsKeys
          · intro e he
            rcases mem_aupdate_of_nodup hinv.bKeys (mem_aremove he).1 with
              ⟨he2, hne⟩ | ⟨b, hb, he2⟩
            · exact hinv.bFresh e he2
            · rw [he2]
              show r.browserId < _
              exact hinv.bFresh (r.browserId, b0) hmem_b0
          · exact List.Nodup.sublist ((aremove_sublist _ _).map Prod.fst) hinv.pKeys
          · intro e he
            exact hinv.pFresh e (mem_aremove he).1
          · intro q hq
            have hq2 : q ∈ s.availablePages := List.mem_of_mem_erase hq
            have hqp : q ≠ pid :=
              ((List.Nodup.mem_erase_iff hinv.availNodup).mp hq).1
            rw [alookup_aremove_ne _ hqp]
            exact hinv.availMem q hq2
          · exact List.Nodup.erase _ hinv.availNodup
          · intro e he hin
            obtain ⟨he2, hnep⟩ := mem_aremove he
            have h3 := hinv.inUseNotAvail e he2 hin
            intro hc
            exact h3 (List.mem_of_mem_erase hc)
          · intro e he
            obtain ⟨he2, hnep⟩ := mem_aremove he
            obtain ⟨be, hbe, hbm⟩ := hinv.pageOwner e he2
            by_cases hq : e.2.browserId = r.browserId
            · exfalso
              rw [hq] at hbe
              have hbeb : be = b0 := by
                rw [hb0] at hbe
                exact (Option.some_injective _ hbe).symm
              have hmem2 : e.1 ∈ b0.pages.erase pid :=
                (List.mem_erase_of_ne hnep).mpr (hbeb ▸ hbm)
              have hlen0 : (b0.pages.erase pid).length = 0 := by omega
              rw [List.length_eq_zero] at hlen0
              rw [hlen0] at hmem2
              simp at hmem2
            · rw [alookup_aremove_ne _ hq, alookup_aupdate_ne _ hq]
              exact ⟨be, hbe, hbm⟩
        · rw [if_neg hz]
          refine { bLen := ?_, bCount := ?_, bCountEq := ?_, bKeys := ?_,
                   bFresh := ?_, pKeys := ?_, pFresh := ?_, availMem := ?_,
                   availNodup := ?_, inUseNotAvail := ?_, pageOwner := ?_ }
          · rw [aupdate_length]
            exact hinv.bLen
          · intro e he
            rcases mem_aupdate_of_nodup hinv.bKeys he with
              ⟨he2, hne⟩ | ⟨b, hb, he2⟩
            · exact hinv.bCount e he2
            · have hbb : b = b0 := by
                rw [hb] at hb0
                exact Option.some_injective _ hb0
              rw [he2, hbb]
              have := hinv.bCount _ hmem_b0
              dsimp only at this ⊢
              omega
          · intro e he
            rcases mem_aupdate_of_nodup hinv.bKeys he with
              ⟨he2, hne⟩ | ⟨b, hb, he2⟩
            · exact hinv.bCountEq e he2
            · have hbb : b = b0 := by
                rw [hb] at hb0
                exact Option.some_injective _ hb0
              rw [he2, hbb]
              dsimp only
              omega
          · exact hbsKeys
          · intro e he
            rcases mem_aupdate_of_nodup hinv.bKeys he with
              ⟨he2, hne⟩ | ⟨b, hb, he2⟩
            · exact hinv.bFresh e he2
            · rw [he2]
              show r.browserId < _
              exact hinv.bFresh (r.browserId, b0) hmem_b0
          · exact List.Nodup.sublist ((aremove_sublist _ _).map Prod.fst) hinv.pKeys
          · intro e he
            exact hinv.pFresh e (mem_aremove he).1
          · intro q hq
            have hq2 : q ∈ s.availablePages := List.mem_of_mem_erase hq
            have hqp : q ≠ pid :=
              ((List.Nodup.mem_erase_iff hinv.availNodup).mp hq).1
            rw [alookup_aremove_ne _ hqp]
            exact hinv.availMem q hq2
          · exact List.Nodup.erase _ hinv.availNodup
          · intro e he hin
            obtain ⟨he2, hnep⟩ := mem_aremove he
            have h3 := hinv.inUseNotAvail e he2 hin
            intro hc
            exact h3 (List.mem_of_mem_erase hc)
          · intro e he
            obtain ⟨he2, hnep⟩ := mem_aremove he
            obtain ⟨be, hbe, hbm⟩ := hinv.pageOwner e he2
            by_cases hq : e.2.browserId = r.browserId
            · rw [hq] at hbe
              have hbeb : be = b0 := by
                rw [hb0] at hbe
                exact (Option.some_injective _ hbe).symm
              refine ⟨{ pageCount := b0.pageCount - 1, pages := b0.pages.erase pid },
                      ?_, ?_⟩
              · rw [hq]
                exact hlook_bs
              · exact (List.mem_erase_of_ne hnep).mpr (hbeb ▸ hbm)
            · rw [alookup_aupdate_ne _ hq]
              exact ⟨be, hbe, hbm⟩
      · rw [if_neg hAv]
        exact hinv

theorem reachable_inv {maxB maxP : Nat} {s : PoolState} (hP : 1 ≤ maxP)
    (h : Reachable maxB maxP s) : PoolInv maxB maxP s := by
  induction h with
  | init => exact initState_inv maxB maxP
  | acquire _ ih => exact findOrCreate_inv hP ih
  | release _ hheld ih => exact returnPage_inv ih hheld
  | timerStart _ _ ih => exact startPageTimer_inv ih
  | timerFire _ ih => exact closeIdlePage_inv ih
  | shutdown _ ih => exact releaseBrowserPool_inv _

/-! ### Claim theorems for the pool -/

/-- C1: in every reachable pool state (for a configuration with at least
one page per browser) the number of browsers satisfies
`len(browsers) <= MaxBrowsers` and every browser has
`0 <= pageCount <= MaxPagesPerBrowser`; every critical section
(acquire, release, timer start, idle-timer fire, shutdown) preserves
the bounds, which is exactly what the induction over `Reachable`
establishes. -/
theorem pool_resource_bounds {maxB maxP : Nat} {s : PoolState}
    (hP : 1 ≤ maxP) (h : Reachable maxB maxP s) :
    s.browsers.length ≤ maxB ∧
      ∀ e ∈ s.browsers, 0 ≤ e.2.pageCount ∧ e.2.pageCount ≤ maxP := by
  have hinv := reachable_inv hP h
  exact ⟨hinv.bLen, fun e he => ⟨Nat.zero_le _, hinv.bCount e he⟩⟩

/-- A pool with one browser of capacity two after two acquires. -/
def poolTwoAcquires : PoolState :=
  (findOrCreateAvailablePage 1 2 (findOrCreateAvailablePage 1 2 initState).1).1

theorem pool_resource_bounds_witness :
    poolTwoAcquires.browsers.length ≤ 1 ∧
      ∀ e ∈ poolTwoAcquires.browsers, 0 ≤ e.2.pageCount ∧ e.2.pageCount ≤ 2 :=
  pool_resource_bounds (by decide)
    (Reachable.acquire (Reachable.acquire Reachable.init))

/-- C2: whenever the acquire path returns a page — popped from
`availablePages`, newly created in an existing or fresh browser, or
handed over to a waiter by `ReturnPage` — the returned page is marked
`InUse` and is absent from `availablePages`. -/
theorem acquire_returns_in_use_page {maxB maxP : Nat} {s : PoolState}
    (hP : 1 ≤ maxP) (h : Reachable maxB maxP s) :
    (∀ s2 pid, findOrCreateAvailablePage maxB maxP s = (s2, .got pid) →
       ∃ r, alookup s2.pageTbl pid = some r ∧ r.inUse = true ∧
         pid ∉ s2.availablePages)
    ∧ (∀ pid s2 wid pid2, heldByCaller s pid →
         returnPageLocked s pid = (s2, .handedOff wid pid2) →
         ∃ r, alookup s2.pageTbl pid2 = some r ∧ r.inUse = true ∧
           pid2 ∉ s2.availablePages) := by
  have hinv := reachable_inv hP h
  constructor
  · intro s2 pid heq
    unfold findOrCreateAvailablePage at heq
    rcases hA : s.availablePages with _ | ⟨pid0, rest⟩ <;> rw [hA] at heq
    · dsimp only at heq
      rcases hC : createPageInFirstAvail maxP s.nextId s.browsers with _ | ⟨bs, bid⟩ <;>
        rw [hC] at heq
      · dsimp only at heq
        by_cases hB : s.browsers.length < maxB
        · rw [if_pos hB] at heq
          injection heq with h1 h2
          injection h2 with h3
          subst h1
          subst h3
          have hnone : alookup s.pageTbl (s.nextId + 1) = none := by
            apply alookup_eq_none
            intro x hx
            have := hinv.pFresh x hx
            omega
          refine ⟨{ inUse := true, timerLive := false, browserId := s.nextId },
                  ?_, rfl, by simp⟩
          dsimp only
          rw [alookup_append_none _ hnone]
          simp [alookup]
        · rw [if_neg hB] at heq
          injection heq with h1 h2
          exact AcquireOutcome.noConfusion h2
      · dsimp only at heq
        injection heq with h1 h2
        injection h2 with h3
        subst h1
        subst h3
        have hnone : alookup s.pageTbl s.nextId = none := by
          apply alookup_eq_none
          intro x hx
          have := hinv.pFresh x hx
          omega
        refine ⟨{ inUse := true, timerLive := false, browserId := bid },
                ?_, rfl, by simp⟩
        dsimp only
        rw [alookup_append_none _ hnone]
        simp [alookup]
    · dsimp only at heq
      injection heq with h1 h2
      injection h2 with h3
      subst h1
      subst h3
      have hmem : pid0 ∈ s.availablePages := by rw [hA]; simp
      obtain ⟨r, hr, hru⟩ := hinv.availMem pid0 hmem
      have hND : (pid0 :: rest).Nodup := hA ▸ hinv.availNodup
      refine ⟨{ inUse := true, timerLive := false, browserId := r.browserId },
              ?_, rfl, ?_⟩
      · dsimp only
        exact alookup_aupdate_self _ hr
      · exact (List.nodup_cons.mp hND).1
  · intro pid s2 wid pid2 hheld heq
    obtain ⟨r0, hr0, hr0u⟩ := hheld
    obtain ⟨b0, hb0, hpm⟩ := hinv.pageOwner (pid, r0) (alookup_mem hr0)
    have htrk : pageTracked s pid = true := by
      simp [pageTracked]
      exact ⟨r0.browserId, b0, alookup_mem hb0, hpm⟩
    unfold returnPageLocked at heq
    rw [if_pos htrk] at heq
    rcases hW : s.waitingQueue with _ | ⟨wid0, ws⟩ <;> rw [hW] at heq
    · dsimp only at heq
      injection heq with h1 h2
      exact ReleaseOutcome.noConfusion h2
    · dsimp only at heq
      injection heq with h1 h2
      injection h2 with h3 h4
      subst h1
      subst h4
      refine ⟨{ inUse := true, timerLive := r0.timerLive, browserId := r0.browserId },
              ?_, rfl, ?_⟩
      · dsimp only
        exact alookup_aupdate_self _ hr0
      · exact hinv.inUseNotAvail (pid, r0) (alookup_mem hr0) hr0u

/-- A pool saturated at one browser with one page, then released with a
waiter absent, re-acquired: exercises the pop-from-available path. -/
def poolPopState : PoolState :=
  (returnPageLocked (findOrCreateAvailablePage 1 1 initState).1 1).1

theorem acquire_returns_in_use_page_witness :
    ∃ r, alookup (findOrCreateAvailablePage 1 1 poolPopState).1.pageTbl 1 =
        some r ∧ r.inUse = true ∧
      1 ∉ (findOrCreateAvailablePage 1 1 poolPopState).1.availablePages :=
  (@acquire_returns_in_use_page 1 1 poolPopState (by decide)
      (Reachable.release (Reachable.acquire Reachable.init)
        ⟨{ inUse := true, timerLive := false, browserId := 0 }, by decide, rfl⟩)).1
    (findOrCreateAvailablePage 1 1 poolPopState).1 1 (by decide)

/-- The racy trace behind the C3 counterexample: acquire the single
page, return it (`ReturnPage` unlocks before `startPageTimer`), let a
second acquire snatch the page from `availablePages`, and only then run
the releaser's pending `startPageTimer`.  The result is an in-use page
with a live idle timer. -/
def racePool : PoolState :=
  startPageTimer
    (findOrCreateAvailablePage 1 1
      (returnPageLocked (findOrCreateAvailablePage 1 1 initState).1 1).1).1 1

/-- C3 counterexample: `racePool` is reachable, yet its page `1` is
marked `InUse` and carries a live idle timer, because `ReturnPage`
appends the page to the pool, releases the mutex, and only then starts
the timer — a concurrent acquire in that window yields an in-use page
with a scheduled timer.  This falsifies the claimed invariant that a
page with `inUse == true` never has a live idle timer. -/
theorem release_timer_race_counterexample :
    Reachable 1 1 racePool ∧
      alookup racePool.pageTbl 1 =
        some { inUse := true, timerLive := true, browserId := 0 } := by
  constructor
  · exact Reachable.timerStart
      (Reachable.acquire
        (Reachable.release (Reachable.acquire Reachable.init)
          ⟨{ inUse := true, timerLive := false, browserId := 0 }, by decide, rfl⟩))
      (by decide)
  · decide

/-- C3 (amended): in every reachable pool state an in-use page is never
in `availablePages`; a `ReturnPage` critical section for a held page
never takes the page-unknown branch, and either hands the page (still
in use) to the head waiter, or pools it with `inUse == false`, after
which the releaser's own `startPageTimer` leaves it pooled, idle and
with a scheduled timer.  The in-use page, however, may carry a live
idle timer when an acquire overtakes the releaser between its two
critical sections (see the counterexample); the fired timer then finds
the page in use and leaves the pool unchanged. -/
theorem in_use_not_pooled_release_outcome {maxB maxP : Nat} {s : PoolState}
    (hP : 1 ≤ maxP) (h : Reachable maxB maxP s) :
    (∀ e ∈ s.pageTbl, e.2.inUse = true → e.1 ∉ s.availablePages)
    ∧ ∀ pid, heldByCaller s pid →
        (returnPageLocked s pid).2 ≠ ReleaseOutcome.closedUnknown
        ∧ (∀ s2 wid pid2, returnPageLocked s pid = (s2, .handedOff wid pid2) →
             pid2 = pid ∧ s.waitingQueue.head? = some wid ∧
             ∃ r, alookup s2.pageTbl pid = some r ∧ r.inUse = true)
        ∧ (∀ s2 pid2, returnPageLocked s pid = (s2, .pooled pid2) →
             pid2 = pid ∧ pid ∈ s2.availablePages ∧
             (∃ r, alookup s2.pageTbl pid = some r ∧ r.inUse = false) ∧
             pid ∈ (startPageTimer s2 pid).availablePages ∧
             ∃ r2, alookup (startPageTimer s2 pid).pageTbl pid = some r2 ∧
               r2.inUse = false ∧ r2.timerLive = true) := by
  have hinv := reachable_inv hP h
  refine ⟨hinv.inUseNotAvail, ?_⟩
  intro pid hheld
  obtain ⟨r0, hr0, hr0u⟩ := hheld
  obtain ⟨b0, hb0, hpm⟩ := hinv.pageOwner (pid, r0) (alookup_mem hr0)
  have htrk : pageTracked s pid = true := by
    simp [pageTracked]
    exact ⟨r0.browserId, b0, alookup_mem hb0, hpm⟩
  refine ⟨?_, ?_, ?_⟩
  · unfold returnPageLocked
    rw [if_pos htrk]
    rcases hW : s.waitingQueue with _ | ⟨wid0, ws⟩ <;> simp
  · intro s2 wid pid2 heq
    unfold returnPageLocked at heq
    rw [if_pos htrk] at heq
    rcases hW : s.waitingQueue with _ | ⟨wid0, ws⟩ <;> rw [hW] at heq
    · dsimp only at heq
      injection heq with h1 h2
      exact ReleaseOutcome.noConfusion h2
    · dsimp only at heq
      injection heq with h1 h2
      injection h2 with h3 h4
      subst h1
      subst h3
      subst h4
      refine ⟨rfl, by simp, ?_⟩
      exact ⟨_, alookup_aupdate_self _ hr0, rfl⟩
  · intro s2 pid2 heq
    unfold returnPageLocked at heq
    rw [if_pos htrk] at heq
    rcases hW : s.waitingQueue with _ | ⟨wid0, ws⟩ <;> rw [hW] at heq
    · dsimp only at heq
      injection heq with h1 h2
      injection h2 with h3
      subst h1
      subst h3
      refine ⟨rfl, by simp, ?_, by simp [startPageTimer], ?_⟩
      · exact ⟨_, alookup_aupdate_self _ hr0, rfl⟩
      · have hstep : alookup
            (aupdate pid (fun r => { r with inUse := false }) s.pageTbl) pid
            = some { inUse := false, timerLive := r0.timerLive,
                     browserId := r0.browserId } :=
          alookup_aupdate_self _ hr0
        refine ⟨{ inUse := false, timerLive := true, browserId := r0.browserId },
                ?_, rfl, rfl⟩
        dsimp only [startPageTimer]
        exact alookup_aupdate_self _ hstep
    · dsimp only at heq
      injection heq with h1 h2
      exact ReleaseOutcome.noConfusion h2

/-- A single page held by the only caller, with no waiters. -/
def heldPool : PoolState := (findOrCreateAvailablePage 1 1 initState).1

theorem in_use_not_pooled_release_outcome_witness :
    (returnPageLocked heldPool 1).2 ≠ ReleaseOutcome.closedUnknown :=
  ((@in_use_not_pooled_release_outcome 1 1 heldPool (by decide)
      (Reachable.acquire Reachable.init)).2 1
    ⟨{ inUse := true, timerLive := false, browserId := 0 }, by decide, rfl⟩).1

/-- C4: when an idle timer fires for a page that is still pooled
(`inUse == false` and present in `availablePages`), `closeIdlePage`
removes the page from the pool, closes it, and decrements the owning
browser's `PageCount`, removing the browser when the count reaches 0 —
all in one critical section; a timer firing for an in-use page, for a
page no longer pooled, or for an already-closed page leaves the state
unchanged. -/
theorem idle_timer_fire_behavior {maxB maxP : Nat} {s : PoolState}
    (hP : 1 ≤ maxP) (h : Reachable maxB maxP s) (pid : Nat) :
    (∀ r, alookup s.pageTbl pid = some r → r.inUse = false →
       pid ∈ s.availablePages →
       pid ∉ (closeIdlePage s pid).availablePages ∧
       alookup (closeIdlePage s pid).pageTbl pid = none ∧
       ∀ b0, alookup s.browsers r.browserId = some b0 →
         (b0.pageCount = 1 →
            alookup (closeIdlePage s pid).browsers r.browserId = none) ∧
         (1 < b0.pageCount →
            alookup (closeIdlePage s pid).browsers r.browserId =
              some { pageCount := b0.pageCount - 1,
                     pages := b0.pages.erase pid }))
    ∧ (∀ r, alookup s.pageTbl pid = some r →
         r.inUse = true ∨ pid ∉ s.availablePages → closeIdlePage s pid = s)
    ∧ (alookup s.pageTbl pid = none → closeIdlePage s pid = s) := by
  have hinv := reachable_inv hP h
  refine ⟨?_, ?_, ?_⟩
  · intro r hG hru hmem
    have hU : ¬ r.inUse = true := by simp [hru]
    have hAv : s.availablePages.contains pid = true := by
      simpa using hmem
    obtain ⟨b0, hb0, hpm⟩ := hinv.pageOwner (pid, r) (alookup_mem hG)
    have hcnt : b0.pageCount = b0.pages.length :=
      hinv.bCountEq _ (alookup_mem hb0)
    have hlook_bs :
        alookup (aupdate r.browserId
            (fun b => { pageCount := b.pageCount - 1, pages := b.pages.erase pid })
            s.browsers) r.browserId
          = some { pageCount := b0.pageCount - 1, pages := b0.pages.erase pid } :=
      alookup_aupdate_self _ hb0
    have hred : closeIdlePage s pid =
        { s with availablePages := s.availablePages.erase pid,
                 pageTbl := aremove pid s.pageTbl,
                 browsers :=
                   if b0.pageCount - 1 = 0 then
                     aremove r.browserId
                       (aupdate r.browserId
                         (fun b => { pageCount := b.pageCount - 1,
                                     pages := b.pages.erase pid })
                         s.browsers)
                   else
                     aupdate r.browserId
                       (fun b => { pageCount := b.pageCount - 1,
                                   pages := b.pages.erase pid })
                       s.browsers } := by
      unfold closeIdlePage
      rw [hG]
      dsimp only
      rw [if_neg hU, if_pos hAv, hlook_bs]
    rw [hred]
    refine ⟨?_, ?_, ?_⟩
    · intro hc
      exact ((List.Nodup.mem_erase_iff hinv.availNodup).mp hc).1 rfl
    · exact alookup_aremove_self _ _
    · intro b1 hb1
      have hbb : b1 = b0 := by
        rw [hb0] at hb1
        exact (Option.some_injective _ hb1).symm
      subst hbb
      constructor
      · intro h1
        have : b1.pageCount - 1 = 0 := by omega
        rw [if_pos this]
        exact alookup_aremove_self _ _
      · intro h1
        have : ¬ b1.pageCount - 1 = 0 := by omega
        rw [if_neg this]
        exact hlook_bs
  · intro r hG hcond
    unfold closeIdlePage
    rw [hG]
    dsimp only
    rcases hcond with hcond | hcond
    · rw [if_pos hcond]
    · by_cases hU2 : r.inUse = true
      · rw [if_pos hU2]
      · rw [if_neg hU2]
        rw [if_neg (by simpa using hcond)]
  · intro hG
    unfold closeIdlePage
    rw [hG]

/-- Pool with its single page idle in `availablePages` and a scheduled
timer: acquire, release, run the releaser's timer start. -/
def idlePool : PoolState :=
  startPageTimer (returnPageLocked (findOrCreateAvailablePage 1 1 initState).1 1).1 1

theorem idle_timer_fire_behavior_witness :
    1 ∉ (closeIdlePage idlePool 1).availablePages ∧
    alookup (closeIdlePage idlePool 1).pageTbl 1 = none ∧
    alookup (closeIdlePage idlePool 1).browsers 0 = none := by
  have h := (@idle_timer_fire_behavior 1 1 idlePool (by decide)
    (Reachable.timerStart
      (Reachable.release (Reachable.acquire Reachable.init)
        ⟨{ inUse := true, timerLive := false, browserId := 0 }, by decide, rfl⟩)
      (by decide)) 1).1
    { inUse := false, timerLive := true, browserId := 0 }
    (by decide) rfl (by decide)
  refine ⟨h.1, h.2.1, ?_⟩
  have h2 := (h.2.2 { pageCount := 1, pages := [1] } (by decide)).1 rfl
  exact h2

/-! ### Shutdown versus blocked acquirers (RequestPage resume) -/

/-- What `RequestPage` does with the value read from the waiter
channel.  `findOrCreateAvailablePage` returns the received
`*PageWithTimeout` with a nil error, so `RequestPage` skips its
error branch and builds `&PageWithBrowser{Page: page.Page, Browser:
page.Browser}` from it: a page handed over by `ReturnPage` is wrapped
and returned, while the nil pointer obtained from a channel closed by
`ReleaseBrowserPool` is dereferenced (`page.Page`), which panics. -/
inductive RequestPageResult where
  | page (pid : Nat)
  | nilReturn
  | nilPanic
  deriving DecidableEq

def requestPageResume (received : Option Nat) : RequestPageResult :=
  match received with
  | some pid => .page pid
  | none => .nilPanic

/-- `ReleaseBrowserPool` closes every channel in `waitingQueue`; a
receiver blocked on a closed channel obtains the zero value `nil`. -/
def shutdownWaiterSignals (s : PoolState) : List (Option Nat) :=
  s.waitingQueue.map (fun _ => (none : Option Nat))

/-- A pool saturated at one browser and one page with one blocked
acquirer enqueued as a waiter. -/
def saturatedPool : PoolState :=
  (findOrCreateAvailablePage 1 1 (findOrCreateAvailablePage 1 1 initState).1).1

/-- C5, evaluated at the failing input: with `MaxBrowsers = 1` and
`MaxPagesPerBrowser = 1`, a second acquire blocks as waiter `2`; when
`ReleaseBrowserPool` closes its channel the blocked
`findOrCreateAvailablePage` receives `nil` and returns it with a nil
error, and `RequestPage` then dereferences the nil page and panics —
it does not return a nil page to its caller as the specification
requires. -/
theorem shutdown_waiter_nil_panic :
    saturatedPool.waitingQueue = [2] ∧
    shutdownWaiterSignals saturatedPool = [none] ∧
    requestPageResume none = RequestPageResult.nilPanic ∧
    requestPageResume none ≠ RequestPageResult.nilReturn := by
  refine ⟨by decide, by decide, rfl, by decide⟩

/-! ### GeneratePDF and mergePDFs: item-order preservation

`GeneratePDF` allocates `readers := make([]io.Reader, len(items))`,
spawns one goroutine per item which stores its PDF at `readers[i]`, and
after `wg.Wait()` hands the slice to `mergePDFs`.  `mergePDFs` likewise
writes `tempFilesNames[i]` concurrently and then merges the files in
slice order.  Concurrency is modelled by the order in which the
goroutines perform their indexed stores: any permutation `order` of
`[0, n)`.  Per-item rendering and the pdfcpu merge are abstracted as a
function per item and ordered concatenation (flatten) of the page streams. -/

/-- The indexed concurrent stores of the `GeneratePDF` and `mergePDFs`
goroutines: `results[i] = f i` for each `i` in completion order. -/
def runConcurrent {α : Type} (n : Nat) (f : Nat → α) (order : List Nat) :
    List (Option α) :=
  order.foldl (fun acc i => acc.set i (some (f i))) (List.replicate n none)

theorem foldl_set_length {α : Type} (f : Nat → α) (order : List Nat)
    (init : List (Option α)) :
    (order.foldl (fun acc i => acc.set i (some (f i))) init).length =
      init.length := by
  induction order generalizing init with
  | nil => rfl
  | cons a rest ih => simp [List.foldl_cons, ih]

theorem foldl_set_getElem {α : Type} (f : Nat → α) (order : List Nat)
    (init : List (Option α)) (j : Nat) :
    (order.foldl (fun acc i => acc.set i (some (f i))) init)[j]? =
      if j ∈ order ∧ j < init.length then some (some (f j)) else init[j]? := by
  induction order generalizing init with
  | nil => simp
  | cons a rest ih =>
      simp only [List.foldl_cons]
      rw [ih]
      rw [List.length_set]
      by_cases hj : j ∈ rest
      · by_cases hl : j < init.length
        · simp [hj, hl]
        · rw [if_neg (fun hc => hl hc.2), if_neg (fun hc => hl hc.2)]
          rw [List.getElem?_set]
          by_cases ha : a = j
          · subst ha
            simp [hl, List.getElem?_eq_none (Nat.le_of_not_lt hl)]
          · simp [ha]
      · rw [if_neg (fun hc => hj hc.1)]
        rw [List.getElem?_set]
        by_cases ha : a = j
        · subst ha
          by_cases hl : a < init.length
          · simp [hl]
          · simp [hl, hj, List.getElem?_eq_none (Nat.le_of_not_lt hl)]
        · have hja : j ≠ a := fun hc => ha hc.symm
          simp [ha, hj, hja]

theorem runConcurrent_eq {α : Type} (n : Nat) (f : Nat → α) (order : List Nat)
    (h : order.Perm (List.range n)) :
    runConcurrent n f order = (List.range n).map (fun i => some (f i)) := by
  apply List.ext_getElem?
  intro j
  unfold runConcurrent
  rw [foldl_set_getElem]
  by_cases hj : j < n
  · have hmem : j ∈ order := h.mem_iff.mpr (List.mem_range.mpr hj)
    simp [hmem, hj, List.getElem?_range hj]
  · have hmem : j ∉ order := fun hc => hj (List.mem_range.mp (h.mem_iff.mp hc))
    have hout : n ≤ j := Nat.le_of_not_lt hj
    simp [hmem, hj, List.getElem?_eq_none, hout]

theorem map_range_getD {β : Type} (l : List β) (d : β) :
    (List.range l.length).map (fun i => l.getD i d) = l := by
  induction l with
  | nil => simp
  | cons a rest ih =>
      rw [List.length_cons, List.range_succ_eq_map]
      rw [List.map_cons, List.map_map]
      have hfun : ((fun i => (a :: rest).getD i d) ∘ Nat.succ)
          = fun i => rest.getD i d := by
        funext i
        simp [List.getD_cons_succ]
      rw [hfun, ih]
      simp [List.getD_cons_zero]

/-- The concurrent write of each input stream to its temp file:
`tempFilesNames[i]` receives item `i`'s bytes. -/
def writeTempFiles {β : Type} (readers : List (List β)) (wOrder : List Nat) :
    List (Option (List β)) :=
  runConcurrent readers.length (fun i => readers.getD i []) wOrder

/-- `mergePDFs`: write every reader to its indexed temp file
(concurrently, in completion order `wOrder`), then merge the files in
slice order — modelled as ordered concatenation. -/
def mergePDFs {β : Type} (readers : List (List β)) (wOrder : List Nat) :
    List β :=
  ((writeTempFiles readers wOrder).map (fun o => o.getD [])).flatten

/-- `GeneratePDF`: render each item concurrently into `readers[i]`
(completion order `order`), then `mergePDFs` the ordered slice. -/
def generatePDF {α β : Type} (items : List α) (render : α → List β)
    (order wOrder : List Nat) : List β :=
  let readers := runConcurrent items.length
    (fun i => (items.map render).getD i []) order
  mergePDFs (readers.map (fun o => o.getD [])) wOrder

theorem mergePDFs_ordered {β : Type} (readers : List (List β))
    (wOrder : List Nat) (h : wOrder.Perm (List.range readers.length)) :
    mergePDFs readers wOrder = readers.flatten := by
  unfold mergePDFs writeTempFiles
  rw [runConcurrent_eq _ _ _ h]
  rw [List.map_map]
  refine congrArg _ ?_
  simpa [Function.comp] using map_range_getD readers []

/-- C6: for any completion orders of the per-item render goroutines and
of the temp-file write goroutines (any permutations of the index
range), the reader slice handed to the merge step holds item `i`'s
bytes at position `i`, and the merged document is the ordered
concatenation of the per-item renders. -/
theorem generate_pdf_preserves_item_order {α β : Type} (items : List α)
    (render : α → List β) (order wOrder : List Nat)
    (_hn : 1 ≤ items.length)
    (h1 : order.Perm (List.range items.length))
    (h2 : wOrder.Perm (List.range items.length)) :
    runConcurrent items.length (fun i => (items.map render).getD i []) order
      = (items.map render).map some
    ∧ generatePDF items render order wOrder = (items.map render).flatten := by
  have hmaplen : (items.map render).length = items.length := List.length_map _ _
  have hre : runConcurrent items.length
      (fun i => (items.map render).getD i []) order
      = (items.map render).map some := by
    rw [runConcurrent_eq _ _ _ h1]
    rw [show (fun i => some ((items.map render).getD i []))
          = (some ∘ fun i => (items.map render).getD i []) from rfl]
    rw [← List.map_map]
    rw [← hmaplen, map_range_getD]
  refine ⟨hre, ?_⟩
  unfold generatePDF
  dsimp only
  rw [hre]
  rw [List.map_map]
  have hid : ((items.map render).map ((fun o => o.getD []) ∘ some))
      = items.map render := by
    simp
  rw [hid]
  apply mergePDFs_ordered
  rw [hmaplen]
  exact h2

theorem generate_pdf_preserves_item_order_witness :
    generatePDF [0] (fun a : Nat => [a]) [0] [0] = [0] :=
  ((generate_pdf_preserves_item_order [0] (fun a : Nat => [a]) [0] [0]
    (by decide) (by decide) (by decide)).2).trans (by decide)

/-! ### Memoizer: GeneratePDFReturningURLUseCase.Execute

The collaborators are embedded from their implementations: the cache is
a Redis-style string map (`Set` overwrites, `Get`, `Delete`), the cloud
store holds objects keyed by `(folder, path)` with
`UploadFile` returning `{PublicURLPrefix}/{FileFolder}/{FilePath}` and
`FileExists` a membership test, and the hash generator is an arbitrary
function of the request (`json.Marshal` then hash — deterministic).
Rendering and uploading are modelled on their success path; the claims
under verification condition on successful runs.  The `dto` in src is
the older variant without `PublicURLPrefix`; the field is embedded as
`publicURLBase` following its uses in `ToDTO` and `Execute`. -/

/-- `dto.GeneralConfig` (also the validated request `GeneralConfig`,
whose fields `ToDTO` copies verbatim).  `expiration : Option Int` is
the `*int64` pointer, `none` when the optional field is absent. -/
structure GeneralConfig where
  directory : String
  fileName : String
  publicURLBase : String
  expiration : Option Int
  deriving DecidableEq

/-- The request as seen by the memoizer: item bodies are opaque. -/
structure PDFRequest where
  items : List String
  config : GeneralConfig
  deriving DecidableEq

/-- One observable collaborator call made by `Execute`. -/
inductive Effect where
  | cacheGetE (k : String)
  | fileExistsE (folder path : String)
  | cacheDeleteE (k : String)
  | renderE
  | uploadE (folder path : String)
  | cacheSetE (k v : String) (exp : Int)
  deriving DecidableEq

/-- The cache and object-store contents. -/
structure MemoState where
  cache : List (String × String)
  store : List (String × String)
  deriving DecidableEq

def cacheGet (c : List (String × String)) (k : String) : Option String :=
  (c.find? (fun e => e.1 == k)).map Prod.snd

def cacheSet (c : List (String × String)) (k v : String) :
    List (String × String) :=
  (k, v) :: c.filter (fun e => e.1 != k)

def cacheDelete (c : List (String × String)) (k : String) :
    List (String × String) :=
  c.filter (fun e => e.1 != k)

def storeHas (st : List (String × String)) (folder path : String) : Bool :=
  st.contains (folder, path)

def storePut (st : List (String × String)) (folder path : String) :
    List (String × String) :=
  (folder, path) :: st

/-- `S3CloudStorage.UploadFile`: the public URL is
`{PublicURLPrefix}/{FileFolder}/{FilePath}`. -/
def uploadURL (base folder path : String) : String :=
  base ++ "/" ++ folder ++ "/" ++ path

/-- Outcome of one `Execute` run: a URL with the final collaborator
state and the trace of calls, or the nil-pointer-dereference panic on
`*request.Config.Expiration`. -/
inductive ExecResult where
  | ok (url : String) (final : MemoState) (effects : List Effect)
  | nilDeref
  deriving DecidableEq

/-- The tail of `Execute` once the cached URL is absent or stale:
render, upload, then build the cache-set request — dereferencing the
`Expiration` pointer — and set the cache. -/
def missPath (h : String) (s : MemoState) (r : PDFRequest)
    (pre : List Effect) : ExecResult :=
  let url := uploadURL r.config.publicURLBase r.config.directory r.config.fileName
  let st2 := storePut s.store r.config.directory r.config.fileName
  match r.config.expiration with
  | some e =>
      .ok url { cache := cacheSet s.cache h url, store := st2 }
        (pre ++ [.renderE, .uploadE r.config.directory r.config.fileName,
                 .cacheSetE h url e])
  | none => .nilDeref

/-- `Execute`: hash the request, consult the cache; on a cached URL
check the artifact still exists (HIT returns it, otherwise delete the
stale entry and fall through); on a miss render, upload and cache. -/
def executeModel (hash : PDFRequest → String) (s : MemoState)
    (r : PDFRequest) : ExecResult :=
  let h := hash r
  match cacheGet s.cache h with
  | some url =>
      if storeHas s.store r.config.directory r.config.fileName then
        .ok url s [.cacheGetE h, .fileExistsE r.config.directory r.config.fileName]
      else
        missPath h { s with cache := cacheDelete s.cache h } r
          [.cacheGetE h, .fileExistsE r.config.directory r.config.fileName,
           .cacheDeleteE h]
  | none => missPath h s r [.cacheGetE h]

theorem cacheGet_cacheSet_self (c : List (String × String)) (k v : String) :
    cacheGet (cacheSet c k v) k = some v := by
  simp [cacheGet, cacheSet]

/-- C7: when a run of `Execute` succeeded and its artifact is still in
the object store, an identical second run returns the same URL, leaves
the state unchanged, and performs only the cache lookup and the
existence check — no render and no upload. -/
theorem memoizer_cache_hit_shortcut (hash : PDFRequest → String)
    (s : MemoState) (r : PDFRequest) {url1 : String} {s1 : MemoState}
    {eff1 : List Effect}
    (h1 : executeModel hash s r = .ok url1 s1 eff1)
    (hex : storeHas s1.store r.config.directory r.config.fileName = true) :
    executeModel hash s1 r =
      .ok url1 s1 [.cacheGetE (hash r),
                   .fileExistsE r.config.directory r.config.fileName] := by
  have hc : cacheGet s1.cache (hash r) = some url1 := by
    unfold executeModel missPath at h1
    dsimp only at h1
    rcases hg : cacheGet s.cache (hash r) with _ | u <;> rw [hg] at h1 <;>
      dsimp only at h1
    · rcases hexp : r.config.expiration with _ | ev <;> rw [hexp] at h1
      · exact ExecResult.noConfusion h1
      · injection h1 with hu hs he2
        subst hu
        subst hs
        exact cacheGet_cacheSet_self _ _ _
    · by_cases hst : storeHas s.store r.config.directory r.config.fileName = true
      · rw [if_pos hst] at h1
        injection h1 with hu hs he2
        subst hu
        subst hs
        exact hg
      · rw [if_neg hst] at h1
        rcases hexp : r.config.expiration with _ | ev <;> rw [hexp] at h1
        · exact ExecResult.noConfusion h1
        · injection h1 with hu hs he2
          subst hu
          subst hs
          exact cacheGet_cacheSet_self _ _ _
  unfold executeModel
  dsimp only
  rw [hc]
  dsimp only
  rw [if_pos hex]

/-- C8: a cached URL whose artifact is gone triggers stale-cache
recovery: delete the stale entry, render, upload exactly once, set the
cache only after the upload, and return the freshly uploaded URL — the
trace fixes the exact order. -/
theorem memoizer_stale_cache_recovery (hash : PDFRequest → String)
    (s : MemoState) (r : PDFRequest) {staleUrl : String} {e : Int}
    (hc : cacheGet s.cache (hash r) = some staleUrl)
    (hm : storeHas s.store r.config.directory r.config.fileName = false)
    (he : r.config.expiration = some e) :
    executeModel hash s r =
      .ok (uploadURL r.config.publicURLBase r.config.directory r.config.fileName)
        { cache := cacheSet (cacheDelete s.cache (hash r)) (hash r)
            (uploadURL r.config.publicURLBase r.config.directory
              r.config.fileName),
          store := storePut s.store r.config.directory r.config.fileName }
        [.cacheGetE (hash r),
         .fileExistsE r.config.directory r.config.fileName,
         .cacheDeleteE (hash r), .renderE,
         .uploadE r.config.directory r.config.fileName,
         .cacheSetE (hash r)
           (uploadURL r.config.publicURLBase r.config.directory
             r.config.fileName) e] := by
  unfold executeModel missPath
  dsimp only
  rw [hc]
  dsimp only
  rw [if_neg (by simp [hm])]
  rw [he]
  rfl

/-! ### Request validation (RequestValidationMiddleware + struct tags)

Embedded from `generate_pdf_returning_url_request.go` and the
go-playground validator semantics of its tags: a field tagged
`omitempty` whose value is the zero value of its type (0 for `int`,
nil for pointers) skips its remaining rules; otherwise the rules run
in tag order and the first failure produces a validation error.  The
middleware aborts with HTTP 400 exactly when the error list is
non-empty; otherwise the validated request reaches the controller and
the core runs.  Item-config fields other than `pageRanges`
(orientation, scale, size, margin, header/footer, flags) are all
`omitempty` options that the claims never set; absent they contribute
no errors and are not embedded. -/

/-- `PageRange` with `Start int validate:"omitempty,min=1"` and
`End int validate:"omitempty,min=1,gtefield=Start"`. -/
structure PageRangeReq where
  Start : Int
  End : Int
  deriving DecidableEq

def pageRangeErrors (pr : PageRangeReq) : List String :=
  (if pr.Start = 0 then []
   else if 1 ≤ pr.Start then [] else ["Items.Config.PageRanges.Start: min"]) ++
  (if pr.End = 0 then []
   else if 1 ≤ pr.End then
     (if pr.Start ≤ pr.End then [] else ["Items.Config.PageRanges.End: gtefield"])
   else ["Items.Config.PageRanges.End: min"])

structure ItemConfigReq where
  pageRanges : Option PageRangeReq
  deriving DecidableEq

/-- `PDFItem` with `BodyHTML string validate:"required"` and an
optional config whose nested `pageRanges` is validated when present. -/
structure PDFItemReq where
  bodyHTML : String
  config : Option ItemConfigReq
  deriving DecidableEq

def itemErrors (it : PDFItemReq) : List String :=
  (if it.bodyHTML = "" then ["Items.BodyHTML: required"] else []) ++
  (match it.config with
   | none => []
   | some c =>
       match c.pageRanges with
       | none => []
       | some pr => pageRangeErrors pr)

/-- The `http_url` tag: the URL must be an http or https URL; embedded
as a scheme check on the character list (kernel-reducible). -/
def isHttpURL (u : String) : Bool :=
  "http://".toList.isPrefixOf u.toList || "https://".toList.isPrefixOf u.toList

/-- `Expiration *int64 validate:"omitempty,min=0"`: a nil pointer
skips validation entirely, so an absent expiration is permitted. -/
def expirationErrors (e : Option Int) : List String :=
  match e with
  | none => []
  | some v => if 0 ≤ v then [] else ["Config.Expiration: min"]

def generalConfigErrors (g : GeneralConfig) : List String :=
  (if g.directory = "" then ["Config.Directory: required"] else []) ++
  (if g.fileName = "" then ["Config.FileName: required"] else []) ++
  (if g.publicURLBase = "" then ["Config.PublicURLPrefix: required"]
   else if isHttpURL g.publicURLBase then []
   else ["Config.PublicURLPrefix: http_url"]) ++
  expirationErrors g.expiration

/-- `GeneratePDFReturningURLRequest` with `Items validate:"required,dive"`. -/
structure GeneratePDFRequest where
  items : List PDFItemReq
  config : GeneralConfig
  deriving DecidableEq

def requestErrors (r : GeneratePDFRequest) : List String :=
  (if r.items.isEmpty then ["Items: required"] else []) ++
  (r.items.map itemErrors).flatten ++ generalConfigErrors r.config

/-- The HTTP status the validation middleware produces: 400 when any
validation error exists (the core never runs), 200 otherwise. -/
def validationStatus (r : GeneratePDFRequest) : Nat :=
  if requestErrors r = [] then 200 else 400

/-- A request whose only item has `pageRanges = {start: 2, end: 0}`:
`end < start`, but `omitempty` treats `End == 0` as absent and skips
both `min` and `gtefield`. -/
def endZeroItem : PDFItemReq :=
  { bodyHTML := "<p>hi</p>",
    config := some { pageRanges := some { Start := 2, End := 0 } } }

def endZeroRequest : GeneratePDFRequest :=
  { items := [endZeroItem],
    config := { directory := "docs", fileName := "out.pdf",
                publicURLBase := "http://files.example.com",
                expiration := some 0 } }

/-- C9 counterexample: a request containing an item whose `pageRanges`
has `end < start` (namely `start = 2`, `end = 0`) passes validation
with status 200 rather than being rejected with HTTP 400, because the
`omitempty` tag on `End` skips `gtefield` when `End` is the zero
value. -/
theorem page_range_end_zero_accepted :
    endZeroItem.config = some { pageRanges := some { Start := 2, End := 0 } } ∧
    endZeroRequest.items = [endZeroItem] ∧
    (({ Start := 2, End := 0 } : PageRangeReq).End
      < ({ Start := 2, End := 0 } : PageRangeReq).Start) ∧
    validationStatus endZeroRequest = 200 := by
  refine ⟨rfl, rfl, by decide, by decide⟩

/-- C9 (amended): validation rejects with HTTP 400 every request
containing an item whose `pageRanges` has `end ≠ 0` and `end < start`;
when `end == 0` the `omitempty` tag treats the field as absent, its
checks are skipped, and the request is accepted. -/
theorem page_range_end_lt_start_rejected (r : GeneratePDFRequest)
    (it : PDFItemReq) (c : ItemConfigReq) (pr : PageRangeReq)
    (hit : it ∈ r.items) (hcfg : it.config = some c)
    (hpr : c.pageRanges = some pr)
    (hne : pr.End ≠ 0) (hlt : pr.End < pr.Start) :
    validationStatus r = 400 := by
  have hpe : pageRangeErrors pr ≠ [] := by
    unfold pageRangeErrors
    intro hcontra
    rcases List.append_eq_nil.mp hcontra with ⟨h3, h4⟩
    rw [if_neg hne] at h4
    by_cases h1 : (1 : Int) ≤ pr.End
    · rw [if_pos h1, if_neg (by omega)] at h4
      simp at h4
    · rw [if_neg h1] at h4
      simp at h4
  have hie : itemErrors it ≠ [] := by
    unfold itemErrors
    rw [hcfg]
    dsimp only
    rw [hpr]
    intro hcontra
    rcases List.append_eq_nil.mp hcontra with ⟨_, h2⟩
    exact hpe h2
  have hre : requestErrors r ≠ [] := by
    unfold requestErrors
    intro hcontra
    rcases List.append_eq_nil.mp hcontra with ⟨h5, h6⟩
    rcases List.append_eq_nil.mp h5 with ⟨h7, h8⟩
    have h9 : itemErrors it = [] := by
      have h10 := List.flatten_eq_nil_iff.mp h8
      exact h10 _ (List.mem_map_of_mem itemErrors hit)
    exact hie h9
  unfold validationStatus
  rw [if_neg hre]

def endLtStartItem : PDFItemReq :=
  { bodyHTML := "<p>hi</p>",
    config := some { pageRanges := some { Start := 3, End := 1 } } }

def endLtStartRequest : GeneratePDFRequest :=
  { items := [endLtStartItem],
    config := { directory := "docs", fileName := "out.pdf",
                publicURLBase := "http://files.example.com",
                expiration := some 0 } }

theorem page_range_end_lt_start_rejected_witness :
    validationStatus endLtStartRequest = 400 :=
  page_range_end_lt_start_rejected endLtStartRequest endLtStartItem
    { pageRanges := some { Start := 3, End := 1 } } { Start := 3, End := 1 }
    (by decide) rfl rfl (by decide) (by decide)

/-- C10: the ingress validation permits an absent `expiration`
(`omitempty` on the `*int64` pointer yields no error for nil), yet any
`Execute` run that reaches the miss path — no cached URL, or the
cached artifact absent — dereferences the nil `Expiration` pointer
when building the cache-set request and panics instead of returning an
error value. -/
theorem nil_expiration_panics_on_miss (hash : PDFRequest → String)
    (s : MemoState) (r : PDFRequest)
    (he : r.config.expiration = none)
    (hmiss : cacheGet s.cache (hash r) = none ∨
      storeHas s.store r.config.directory r.config.fileName = false) :
    expirationErrors r.config.expiration = [] ∧
    executeModel hash s r = ExecResult.nilDeref := by
  refine ⟨by rw [he]; rfl, ?_⟩
  unfold executeModel missPath
  dsimp only
  rcases hg : cacheGet s.cache (hash r) with _ | u <;> dsimp only
  · rw [he]
  · rcases hmiss with hmiss | hmiss
    · rw [hg] at hmiss
      exact Option.noConfusion hmiss
    · rw [if_neg (by simp [hmiss])]
      rw [he]

def noExpRequest : PDFRequest :=
  { items := ["<p>hi</p>"],
    config := { directory := "docs", fileName := "out.pdf",
                publicURLBase := "http://files.example.com",
                expiration := none } }

theorem nil_expiration_panics_on_miss_witness :
    expirationErrors noExpRequest.config.expiration = [] ∧
    executeModel (fun _ => "k") { cache := [], store := [] } noExpRequest =
      ExecResult.nilDeref :=
  nil_expiration_panics_on_miss (fun _ => "k") { cache := [], store := [] }
    noExpRequest rfl (Or.inl (by decide))

/-! ### Concrete memoizer runs for the witnesses -/

def hashK : PDFRequest → String := fun _ => "k"

def memo0 : MemoState := { cache := [], store := [] }

def req0 : PDFRequest :=
  { items := ["<p>hi</p>"],
    config := { directory := "s", fileName := "a.pdf",
                publicURLBase := "http://h", expiration := some 0 } }

def url0 : String := "http://h/s/a.pdf"

def memo1 : MemoState := { cache := [("k", url0)], store := [("s", "a.pdf")] }

theorem memoizer_cache_hit_shortcut_witness :
    executeModel hashK memo1 req0 =
      ExecResult.ok url0 memo1
        [Effect.cacheGetE "k", Effect.fileExistsE "s" "a.pdf"] :=
  memoizer_cache_hit_shortcut hashK memo0 req0
    (show executeModel hashK memo0 req0 = ExecResult.ok url0 memo1
        [Effect.cacheGetE "k", Effect.renderE, Effect.uploadE "s" "a.pdf",
         Effect.cacheSetE "k" url0 0] from by decide)
    (by decide)

def memoStale : MemoState := { cache := [("k", url0)], store := [] }

theorem memoizer_stale_cache_recovery_witness :
    executeModel hashK memoStale req0 =
      ExecResult.ok url0
        { cache := [("k", url0)], store := [("s", "a.pdf")] }
        [Effect.cacheGetE "k", Effect.fileExistsE "s" "a.pdf",
         Effect.cacheDeleteE "k", Effect.renderE, Effect.uploadE "s" "a.pdf",
         Effect.cacheSetE "k" url0 0] :=
  (memoizer_stale_cache_recovery hashK memoStale req0
    (show cacheGet memoStale.cache (hashK req0) = some url0 from by decide)
    (by decide) rfl).trans (by decide)

end Serpentarius
